import Mathlib

/-!
Verification of the anyCrawler core (Identity Registry, Path Resolver,
Batch Downloader) against its specification.  The Python sources
`util/random_id_factory.py`, `processor/file_processor.py`,
`processor/pdf_processor.py` and `crawlee_app.py` are shallowly embedded:
dictionaries become association lists (assignment = cons, lookup takes the
most recent binding), the filesystem and the network become explicit values
threaded through the functions, and raised exceptions become `Except`.
-/

deriving instance DecidableEq for Except

namespace Crawlee

/-- Python `dict.get`: the most recent assignment wins (assignments are
modelled by consing onto the association list). -/
def dictGet {β : Type} (k : String) : List (String × β) → Option β
  | [] => none
  | (k', v) :: rest => if k' = k then some v else dictGet k rest

/-! ### urllib.parse.urlparse (the fields used by the sources)

`get_root_domain_from_url` uses `urlparse(url).netloc` and
`get_save_path_from_url` uses `urlparse(url).path`.  We model CPython's
`urlsplit`/`urlparse`: surrounding C0-control/space characters are stripped,
tab/CR/LF are removed everywhere, an RFC scheme prefix (letter followed by
letters/digits/`+`/`-`/`.`, up to a colon) is split off, the authority
(netloc) extends from a leading `//` to the next `/`, `?` or `#`, the
fragment is split at the first `#`, the query at the first `?`, and
(`urlparse` only) params at a `;` in the last path segment. -/

def isSchemeChar (c : Char) : Bool :=
  c.isAlpha || c.isDigit || c == '+' || c == '-' || c == '.'

/-- Strip leading/trailing C0 control characters and spaces, and remove
tab/CR/LF, as CPython's `urlsplit` does before parsing. -/
def urlCleanup (url : String) : List Char :=
  let dropped := (url.data.dropWhile (fun c => c.val ≤ 0x20)).reverse
  let dropped := (dropped.dropWhile (fun c => c.val ≤ 0x20)).reverse
  dropped.filter (fun c => !(c == '\t' || c == '\r' || c == '\n'))

/-- Split off `scheme:`; returns the characters after the colon when the
prefix before the first colon is a valid scheme. -/
def splitScheme (cs : List Char) : List Char :=
  match cs.findIdx? (· == ':') with
  | none => cs
  | some i =>
    let sch := cs.take i
    if 0 < i ∧ sch.all isSchemeChar ∧ (sch.headI).isAlpha then cs.drop (i + 1)
    else cs

/-- Split the authority from `rest`: if it starts with `//`, the netloc is
everything up to the next `/`, `?` or `#`. Returns `(netloc, remainder)`. -/
def splitNetloc (cs : List Char) : List Char × List Char :=
  match cs with
  | '/' :: '/' :: rest =>
    (rest.takeWhile (fun c => !(c == '/' || c == '?' || c == '#')),
     rest.dropWhile (fun c => !(c == '/' || c == '?' || c == '#')))
  | _ => ([], cs)

/-- The path component: the remainder with fragment, query and params
stripped. -/
def splitPathOnly (cs : List Char) : List Char :=
  let cs := cs.takeWhile (· ≠ '#')
  let cs := cs.takeWhile (· ≠ '?')
  -- urlparse: params split at the first ';' at or after the last '/'
  let lastSeg := (cs.reverse.takeWhile (· ≠ '/')).reverse
  if lastSeg.contains ';' then
    cs.take (cs.length - lastSeg.length) ++ lastSeg.takeWhile (· ≠ ';')
  else cs

/-- `urlparse(url).netloc`. -/
def urlparse_netloc (url : String) : String :=
  ⟨(splitNetloc (splitScheme (urlCleanup url))).1⟩

/-- `urlparse(url).path`. -/
def urlparse_path (url : String) : String :=
  ⟨splitPathOnly (splitNetloc (splitScheme (urlCleanup url))).2⟩

/-- `file_processor.get_root_domain_from_url`: the netloc of the URL. -/
def get_root_domain_from_url (url : String) : String :=
  urlparse_netloc url

/-! ### pathlib join

`random_id_factory` builds the candidate id as
`str(Path(root_domain) / uuid_string)`.  pathlib drops empty and `"."`
components and restarts at an absolute second component; `str(Path(""))`
is `"."`. The arguments arising here are a URL netloc (never containing a
slash) and a path component. -/

def pyPathJoin (a b : String) : String :=
  if b = "" ∨ b = "." then (if a = "" then "." else a)
  else if b.data.head? = some '/' then b
  else if a = "" ∨ a = "." then b
  else a ++ "/" ++ b

/-! ### Identity Registry (`util/random_id_factory.py`)

State of the `RandomIDFactory` singleton: the `url_to_uuid` index and the
`metadata` store.  The event-loop clock (`asyncio.get_running_loop().time()`)
is modelled as an abstract tick `now` supplied by the caller, and the
composite `str(uuid.UUID(bytes=sha256(s.encode())[:16]))` digest is a
parameter `hash` of the operations (instantiated below with a concrete
SHA-256 for the derivation claims); the registry logic never inspects its
output.  A raised `RuntimeError` ("collision exhausted") is `Except.error`. -/

structure FileMetadata where
  name : String
  url : String
  timestamp : Nat
deriving DecidableEq, Repr

structure RandomIDFactory where
  url_to_uuid : List (String × String)
  metadata : List (String × FileMetadata)
deriving DecidableEq, Repr

def regEmpty : RandomIDFactory := ⟨[], []⟩

inductive RegError
  | collisionExhausted
deriving DecidableEq, Repr

/-- The nonce-salted digest input of attempt `nonce` (`nonce = 0` is the
plain URL, `nonce > 0` is `f"{url}_{nonce}"`). -/
def saltedUrl (url : String) (nonce : Nat) : String :=
  if nonce = 0 then url else url ++ "_" ++ toString nonce

/-- The salted inputs tried by the collision loop: the URL itself (nonce 0),
then `url + "_" + nonce` for nonce = 1..10 (`for nonce in range(11)`). -/
def attemptUrls (url : String) : List String :=
  (List.range 11).map (saltedUrl url)

/-- The body of the `for nonce in ...` loop of `registerfilemetadata`:
try each salted input in turn; a candidate occupied by a record for a
different URL falls through to the next nonce; the loop running out raises
(`RuntimeError`, spec name `CollisionExhausted`).  The registry state is
returned alongside the outcome because the singleton survives the raise. -/
def tryCandidates (hash : String → String) (root_domain url : String) (now : Nat)
    (s : RandomIDFactory) : List String → (Except RegError FileMetadata) × RandomIDFactory
  | [] => (.error .collisionExhausted, s)
  | u :: rest =>
    let candidate := pyPathJoin root_domain (hash u)
    match dictGet candidate s.metadata with
    | some m =>
      if m.url = url then
        (.ok m, { s with url_to_uuid := (url, candidate) :: s.url_to_uuid })
      else
        tryCandidates hash root_domain url now s rest
    | none =>
      let entry : FileMetadata := ⟨candidate, url, now⟩
      (.ok entry, ⟨(url, candidate) :: s.url_to_uuid, (candidate, entry) :: s.metadata⟩)

/-- `RandomIDFactory.registerfilemetadata`.  The walrus-guarded early return
fires only when the indexed id is truthy (a nonempty string) and its record
is present; otherwise the candidate derivation and collision loop run. -/
def registerfilemetadata (hash : String → String) (url : String) (now : Nat)
    (s : RandomIDFactory) : (Except RegError FileMetadata) × RandomIDFactory :=
  let fresh := tryCandidates hash (get_root_domain_from_url url) url now s (attemptUrls url)
  match dictGet url s.url_to_uuid with
  | some existing_id =>
    if existing_id = "" then fresh
    else
      match dictGet existing_id s.metadata with
      | some m => (.ok m, s)
      | none => fresh
  | none => fresh

/-- The candidate id of attempt `k`:
`str(Path(root_domain) / str(uuid.UUID(bytes=sha256(salted)[:16])))`. -/
def nonceCandidate (hash : String → String) (url : String) (k : Nat) : String :=
  pyPathJoin (get_root_domain_from_url url) (hash (saltedUrl url k))

/-- Attempt `k` collides: its candidate id is occupied by a record stored
for a different URL. -/
def collidesAt (hash : String → String) (url : String) (s : RandomIDFactory)
    (k : Nat) : Prop :=
  ∃ mk, dictGet (nonceCandidate hash url k) s.metadata = some mk ∧ mk.url ≠ url

/-- Attempt `k` succeeds: its candidate id is unused, or holds a record
whose stored URL is the one being registered. -/
def freeOrMine (hash : String → String) (url : String) (s : RandomIDFactory)
    (k : Nat) : Prop :=
  ∀ mk, dictGet (nonceCandidate hash url k) s.metadata = some mk → mk.url = url

/-- The registry states reachable from the empty singleton by
`registerfilemetadata` calls (with the digest function fixed across calls,
as in the source). -/
inductive Reachable (hash : String → String) : RandomIDFactory → Prop
  | empty : Reachable hash regEmpty
  | step {s : RandomIDFactory} (url : String) (now : Nat) :
      Reachable hash s → Reachable hash (registerfilemetadata hash url now s).2

/-! ### Path Resolver (`processor/file_processor.py`)

`sanitize_name` is `re.sub(r"[^\w.-]", "_", name)`.  Python's `\w` on `str`
patterns is Unicode-aware: underscore or any Unicode alphanumeric code
point — strictly wider than ASCII `[A-Za-z0-9_]`. -/

/-- CPython `re` word character for `str` patterns (`\w`): underscore or a
Unicode alphanumeric code point.  The ASCII rule is exact and the Latin-1
rows of the Unicode table are spelled out (letters 0xAA, 0xB5, 0xBA,
0xC0–0xFF except the multiplication/division signs, numerics 0xB2, 0xB3,
0xB9, 0xBC–0xBE); code points at or above 0x100 are approximated by
excluding the main punctuation/symbol blocks — every concrete evaluation in
this development stays below 0x100. -/
def pyWordChar (c : Char) : Bool :=
  let n := c.toNat
  if n < 0x80 then c.isAlphanum || c == '_'
  else if n ≤ 0xFF then
    n == 0xAA || n == 0xB2 || n == 0xB3 || n == 0xB5 || n == 0xB9 || n == 0xBA ||
    n == 0xBC || n == 0xBD || n == 0xBE ||
    (0xC0 ≤ n && !(n == 0xD7) && !(n == 0xF7))
  else
    !(0x2000 ≤ n && n ≤ 0x2BFF) && !(0x3000 ≤ n && n ≤ 0x303F)

/-- The characters kept unchanged by `sanitize_name`'s character class
`[\w.-]`. -/
def sanitizeKeep (c : Char) : Bool := pyWordChar c || c == '.' || c == '-'

/-- `file_processor.sanitize_name`: `re.sub(r"[^\w.-]", "_", name)` — every
character outside the class becomes an underscore. -/
def sanitize_name (name : String) : String :=
  ⟨name.data.map (fun c => if sanitizeKeep c then c else '_')⟩

/-- Python `str.strip("/")`. -/
def stripSlashes (cs : List Char) : List Char :=
  ((cs.dropWhile (· == '/')).reverse.dropWhile (· == '/')).reverse

/-- The sanitized components of the path built by `get_save_path_from_url`:
the domain, the intermediate segments, and the filename (its stem and
extension sanitized independently when it contains a dot). -/
structure SavePathParts where
  domain : String
  parts : List String
  filename : String
deriving DecidableEq, Repr

/-- `parsed.path.strip("/").split("/")`. -/
def rawPathParts (url : String) : List (List Char) :=
  (stripSlashes (urlparse_path url).data).splitOn '/'

/-- Popping the filename: when the last path part contains a dot it becomes
the filename, otherwise the filler name `"download"` is used.  Returns the
remaining (intermediate) parts and the raw filename. -/
def rawSplit (url : String) : List (List Char) × String :=
  let pp := rawPathParts url
  if !pp.isEmpty && (pp.getLast?.getD []).contains '.' then
    (pp.dropLast, String.mk (pp.getLast?.getD []))
  else (pp, "download")

/-- Sanitize the filename while preserving the extension: `rsplit(".", 1)`
splits at the last dot, the stem and the extension are sanitized
independently. -/
def sanitizedFilename (filename : String) : String :=
  if filename.data.contains '.' then
    sanitize_name ⟨((filename.data.reverse.dropWhile (· ≠ '.')).drop 1).reverse⟩ ++
      "." ++ sanitize_name ⟨(filename.data.reverse.takeWhile (· ≠ '.')).reverse⟩
  else sanitize_name filename

def get_save_path_parts (url : String) : SavePathParts :=
  ⟨sanitize_name (urlparse_netloc url),
   (rawSplit url).1.map (fun p => sanitize_name ⟨p⟩),
   sanitizedFilename (rawSplit url).2⟩

/-- `os.path.join` for two components (POSIX, no drive letters): an absolute
second component restarts the path; otherwise a separator is inserted unless
the left part is empty or already ends in one. -/
def osPathJoin (a b : String) : String :=
  if b.data.head? = some '/' then b
  else if a = "" then b
  else if a.data.getLast? = some '/' then a ++ b
  else a ++ "/" ++ b

/-- The directory `get_save_path_from_url` passes to
`os.makedirs(full_dir, exist_ok=True)`:
`os.path.join(save_base_path, domain, *path_parts)`. -/
def save_dir_for (url save_base_path : String) : String :=
  let p := get_save_path_parts url
  (p.domain :: p.parts).foldl osPathJoin save_base_path

/-- `file_processor.get_save_path_from_url` (the returned path; the
`os.makedirs` side effect is exposed as `save_dir_for`). -/
def get_save_path_from_url (url save_base_path : String) : String :=
  osPathJoin (save_dir_for url save_base_path) (get_save_path_parts url).filename

/-- Every sanitized component entering the composed path, in order: the
domain, the intermediate segments, the filename. -/
def savePathComponents (url : String) : List String :=
  let p := get_save_path_parts url
  p.domain :: p.parts ++ [p.filename]

/-- The spec's sanctioned character class `[A-Za-z0-9._-]`, written from the
spec's words for comparison with the code's class. -/
def specSafeChar (c : Char) : Bool :=
  (('A' ≤ c && c ≤ 'Z') || ('a' ≤ c && c ≤ 'z') || ('0' ≤ c && c ≤ '9') ||
   c == '.' || c == '_' || c == '-')

/-! ### Batch Resource Downloader (`FileProcessor.batch_process_files`)

Every url is submitted to the thread pool exactly once (the
`executor.submit` dictionary comprehension); the `as_completed` loop then
collects results in completion order, which is an arbitrary permutation of
the submission list.  A raised Python exception is `Except.error`; the
`Bool` a worker returns is the Python truthiness of its result. -/

/-- A raised Python exception. -/
structure PyExn where
  msg : String
deriving DecidableEq, Repr

/-- The argument the pool passes to `progress_function` along with the url:
the resolved save path exactly when a `save_base_path` was supplied. -/
def batchDest (save_base_path : Option String) (url : String) : Option String :=
  save_base_path.map (fun b => get_save_path_from_url url b)

/-- What a successful item contributes to the returned list: the url itself
when no `save_base_path` was given, the (re-computed) save path otherwise. -/
def batchOutcome (save_base_path : Option String) (url : String) : String :=
  match save_base_path with
  | none => url
  | some b => get_save_path_from_url url b

/-- The `as_completed` collection loop of `batch_process_files`, processed
in completion order: a worker exception is re-raised
(`except Exception as e: raise e`), discarding the results collected so
far; a truthy result appends its outcome. -/
def processCompletions (worker : String → Option String → Except PyExn Bool)
    (save_base_path : Option String) :
    List String → Except PyExn (List String)
  | [] => .ok []
  | url :: rest =>
    match worker url (batchDest save_base_path url) with
    | .error e => .error e
    | .ok success =>
      match processCompletions worker save_base_path rest with
      | .error e => .error e
      | .ok acc =>
        .ok (if success then batchOutcome save_base_path url :: acc else acc)

/-- `FileProcessor.batch_process_files`: each url in `completionOrder` (a
permutation of the submitted urls) was dispatched to `worker` exactly once,
with the resolved save path exactly when `save_base_path` was supplied. -/
def batch_process_files (worker : String → Option String → Except PyExn Bool)
    (save_base_path : Option String) (completionOrder : List String) :
    Except PyExn (List String) :=
  processCompletions worker save_base_path completionOrder

/-- The directories created by `batch_process_files` (via `os.makedirs`
inside `get_save_path_from_url`, already invoked at submission time for
every url): none at all when no `save_base_path` is given. -/
def batchDirsCreated (urls : List String) (save_base_path : Option String) :
    List String :=
  match save_base_path with
  | none => []
  | some b => urls.map (fun u => save_dir_for u b)

/-! ### SHA-256 and uuid formatting

`registerfilemetadata` derives its candidate from
`str(uuid.UUID(bytes=hashlib.sha256(url.encode("utf-8")).digest()[:16]))`.
SHA-256 (FIPS 180-4) is embedded over `Nat` with explicit `% 2^32`. -/

def M32 : Nat := 4294967296

def rotr32 (n x : Nat) : Nat := ((x >>> n) ||| (x <<< (32 - n))) % M32

def smallSigma0 (x : Nat) : Nat := (rotr32 7 x) ^^^ (rotr32 18 x) ^^^ (x >>> 3)

def smallSigma1 (x : Nat) : Nat := (rotr32 17 x) ^^^ (rotr32 19 x) ^^^ (x >>> 10)

def bigSigma0 (x : Nat) : Nat := (rotr32 2 x) ^^^ (rotr32 13 x) ^^^ (rotr32 22 x)

def bigSigma1 (x : Nat) : Nat := (rotr32 6 x) ^^^ (rotr32 11 x) ^^^ (rotr32 25 x)

/-- The 64 round constants of FIPS 180-4 (fractional parts of the cube
roots of the first 64 primes), in decimal. -/
def sha256K : List Nat :=
  [1116352408, 1899447441, 3049323471, 3921009573,
   961987163, 1508970993, 2453635748, 2870763221,
   3624381080, 310598401, 607225278, 1426881987,
   1925078388, 2162078206, 2614888103, 3248222580,
   3835390401, 4022224774, 264347078, 604807628,
   770255983, 1249150122, 1555081692, 1996064986,
   2554220882, 2821834349, 2952996808, 3210313671,
   3336571891, 3584528711, 113926993, 338241895,
   666307205, 773529912, 1294757372, 1396182291,
   1695183700, 1986661051, 2177026350, 2456956037,
   2730485921, 2820302411, 3259730800, 3345764771,
   3516065817, 3600352804, 4094571909, 275423344,
   430227734, 506948616, 659060556, 883997877,
   958139571, 1322822218, 1537002063, 1747873779,
   1955562222, 2024104815, 2227730452, 2361852424,
   2428436474, 2756734187, 3204031479, 3329325298]

/-- The initial hash state of FIPS 180-4 (fractional parts of the square
roots of the first 8 primes), in decimal. -/
def sha256H0 : List Nat :=
  [1779033703, 3144134277, 1013904242, 2773480762,
   1359893119, 2600822924, 528734635, 1541459225]

/-- UTF-8 encoding of a string (`url.encode("utf-8")`), as a byte list. -/
def utf8Bytes (s : String) : List Nat :=
  s.data.flatMap (fun c =>
    let n := c.toNat
    if n < 0x80 then [n]
    else if n < 0x800 then [0xC0 ||| (n >>> 6), 0x80 ||| (n &&& 0x3F)]
    else if n < 0x10000 then
      [0xE0 ||| (n >>> 12), 0x80 ||| ((n >>> 6) &&& 0x3F), 0x80 ||| (n &&& 0x3F)]
    else
      [0xF0 ||| (n >>> 18), 0x80 ||| ((n >>> 12) &&& 0x3F),
       0x80 ||| ((n >>> 6) &&& 0x3F), 0x80 ||| (n &&& 0x3F)])

/-- Big-endian 64-bit length field. -/
def be64 (n : Nat) : List Nat :=
  [(n >>> 56) % 256, (n >>> 48) % 256, (n >>> 40) % 256, (n >>> 32) % 256,
   (n >>> 24) % 256, (n >>> 16) % 256, (n >>> 8) % 256, n % 256]

/-- FIPS 180-4 padding: `0x80`, zeros to 56 mod 64, bit length. -/
def sha256pad (msg : List Nat) : List Nat :=
  msg ++ [0x80] ++ List.replicate ((119 - msg.length % 64) % 64) 0 ++ be64 (8 * msg.length)

/-- Big-endian 32-bit words from bytes. -/
def bytesToWords : List Nat → List Nat
  | a :: b :: c :: d :: rest => (((a * 256 + b) * 256 + c) * 256 + d) :: bytesToWords rest
  | _ => []

/-- Extend the 16-word message schedule by `fuel` further words. -/
def sha256Extend (w : Array Nat) : Nat → Array Nat
  | 0 => w
  | fuel + 1 =>
    let i := w.size
    let x := (smallSigma1 (w.getD (i - 2) 0) + w.getD (i - 7) 0 +
              smallSigma0 (w.getD (i - 15) 0) + w.getD (i - 16) 0) % M32
    sha256Extend (w.push x) fuel

/-- The 64 compression rounds, fed the zipped round constants and schedule. -/
def sha256Rounds :
    List (Nat × Nat) → Nat × Nat × Nat × Nat × Nat × Nat × Nat × Nat →
    Nat × Nat × Nat × Nat × Nat × Nat × Nat × Nat
  | [], st => st
  | (k, wt) :: rest, (a, b, c, d, e, f, g, h) =>
    let ch := (e &&& f) ^^^ ((e ^^^ 0xFFFFFFFF) &&& g)
    let maj := (a &&& b) ^^^ (a &&& c) ^^^ (b &&& c)
    let t1 := (h + bigSigma1 e + ch + k + wt) % M32
    let t2 := (bigSigma0 a + maj) % M32
    sha256Rounds rest ((t1 + t2) % M32, a, b, c, (d + t1) % M32, e, f, g)

/-- Compress one 16-word block into the hash state. -/
def sha256Compress (hs : List Nat) (block : List Nat) : List Nat :=
  let w := (sha256Extend block.toArray 48).toList
  let st := (hs.getD 0 0, hs.getD 1 0, hs.getD 2 0, hs.getD 3 0,
             hs.getD 4 0, hs.getD 5 0, hs.getD 6 0, hs.getD 7 0)
  let r := sha256Rounds (sha256K.zip w) st
  List.zipWith (fun x y => (x + y) % M32) hs
    [r.1, r.2.1, r.2.2.1, r.2.2.2.1, r.2.2.2.2.1, r.2.2.2.2.2.1,
     r.2.2.2.2.2.2.1, r.2.2.2.2.2.2.2]

/-- Fold the compression over the 64-byte blocks of the padded message;
the padded length is a multiple of 64, so `blocks` (the block count) covers
the whole message.  Structural recursion on the count keeps the definition
reducible for concrete evaluation. -/
def sha256Blocks (blocks : Nat) (hs : List Nat) (bytes : List Nat) : List Nat :=
  match blocks with
  | 0 => hs
  | n + 1 => sha256Blocks n (sha256Compress hs (bytesToWords (bytes.take 64))) (bytes.drop 64)

/-- Words back to big-endian bytes. -/
def wordsToBytes (ws : List Nat) : List Nat :=
  ws.flatMap (fun w => [(w >>> 24) % 256, (w >>> 16) % 256, (w >>> 8) % 256, w % 256])

/-- `hashlib.sha256(s.encode("utf-8")).digest()` as a byte list. -/
def sha256Bytes (s : String) : List Nat :=
  let padded := sha256pad (utf8Bytes s)
  wordsToBytes (sha256Blocks (padded.length / 64) sha256H0 padded)

def hexChar (n : Nat) : Char :=
  if n < 10 then Char.ofNat (48 + n) else Char.ofNat (87 + n)

def byteHex (b : Nat) : List Char := [hexChar (b / 16 % 16), hexChar (b % 16)]

/-- `str(uuid.UUID(bytes=bs))`: the 16 bytes in lowercase hex, grouped
8-4-4-4-12 with dashes. -/
def uuidFormat (bs : List Nat) : String :=
  let hx := (bs.take 16).flatMap byteHex
  ⟨hx.take 8 ++ '-' :: ((hx.drop 8).take 4) ++ '-' :: ((hx.drop 12).take 4) ++
    '-' :: ((hx.drop 16).take 4) ++ '-' :: hx.drop 20⟩

/-- The full digest used by `registerfilemetadata`:
`str(uuid.UUID(bytes=hashlib.sha256(s.encode("utf-8")).digest()[:16]))`. -/
def sha256_uuid (s : String) : String :=
  uuidFormat (sha256Bytes s)

/-! ### Per-item downloader

`PDFProcessor._download_single_pdf`; `crawlee_app.file_download` is the
same algorithm without the content-type guard.  The filesystem and the
network become explicit values. -/

/-- The filesystem: a map from paths to byte contents. -/
structure FS where
  files : List (String × List Nat)
deriving DecidableEq, Repr

def FS.empty : FS := ⟨[]⟩

def FS.lookup (fs : FS) (p : String) : Option (List Nat) := dictGet p fs.files

/-- `os.path.exists`. -/
def FS.existsFile (fs : FS) (p : String) : Bool := (fs.lookup p).isSome

/-- The state of `p` after `open(p, "wb")` has truncated it and `content`
has been written. -/
def FS.write (fs : FS) (p : String) (content : List Nat) : FS :=
  ⟨(p, content) :: fs.files.filter (fun q => q.1 != p)⟩

/-- `os.remove`. -/
def FS.remove (fs : FS) (p : String) : FS :=
  ⟨fs.files.filter (fun q => q.1 != p)⟩

/-- One `progress_callback(url, save_path, status, percent)` invocation.
`alreadyExists`, `notPdf` and `errored` report percent 0 and `completed`
percent 100; `downloading` reports `downloaded / total * 100`, carried as
the exact pair to avoid floating point. -/
inductive ProgressEvent
  | alreadyExists (url save_path : String)
  | notPdf (url save_path : String)
  | downloading (url save_path : String) (downloaded total : Nat)
  | completed (url save_path : String)
  | errored (url save_path : String) (msg : String)
deriving DecidableEq, Repr

/-- One step of the `iter_content` / `f.write` loop: a chunk arrives and is
written, or an exception interrupts the stream — `requestExc` for a
`requests.exceptions.RequestException` (mid-stream transport failure),
`otherExc` for any other exception (e.g. an `OSError` raised by writing to
the destination). -/
inductive BodyEvent
  | chunk (data : List Nat)
  | requestExc (msg : String)
  | otherExc (msg : String)
deriving DecidableEq, Repr

/-- The response to the streaming GET: the `content-type` header, the
`content-length` header (0 when unknown), and the events its body
produces. -/
structure HttpResponse where
  contentType : String
  contentLength : Nat
  body : List BodyEvent
deriving DecidableEq, Repr

/-- Python's `needle in haystack` on strings: substring containment. -/
def listIsInfix (pat : List Char) : List Char → Bool
  | [] => pat.isEmpty
  | c :: rest => pat.isPrefixOf (c :: rest) || listIsInfix pat rest

/-- The result of one worker run: its boolean return value, the final
filesystem, the callback invocations, and whether `session.get` was
reached. -/
structure DownloadResult where
  success : Bool
  fs : FS
  events : List ProgressEvent
  fetched : Bool
deriving DecidableEq, Repr

/-- The chunk loop of `_download_single_pdf`: `content` is what has been
written to the (truncated) open file so far.  Empty chunks are skipped
(`if chunk:`); progress is reported only when the total size is known.
A `RequestException` lands in the handler that removes the partially
written file; any other exception lands in the bare `except Exception`
handler, which reports the error but leaves the partial file behind. -/
def streamBody (url save_path : String) (total : Nat) (fs : FS) (content : List Nat) :
    List BodyEvent → Bool × FS × List ProgressEvent
  | [] => (true, fs.write save_path content, [.completed url save_path])
  | .chunk data :: rest =>
    if data.isEmpty then streamBody url save_path total fs content rest
    else
      let content' := content ++ data
      let evs := if total > 0 then
        [ProgressEvent.downloading url save_path content'.length total] else []
      let r := streamBody url save_path total fs content' rest
      (r.1, r.2.1, evs ++ r.2.2)
  | .requestExc msg :: _ =>
    let fs1 := fs.write save_path content
    let fs2 := if fs1.existsFile save_path then fs1.remove save_path else fs1
    (false, fs2, [.errored url save_path msg])
  | .otherExc msg :: _ =>
    (false, fs.write save_path content, [.errored url save_path msg])

/-- `PDFProcessor._download_single_pdf` (with `withPdfCheck := true`) and
`crawlee_app.file_download` (`withPdfCheck := false`).  `net` is what
`session.get` + `raise_for_status` would yield for this url:
`Except.error` is a `RequestException` raised before streaming begins. -/
def download_single_pdf (withPdfCheck : Bool) (net : Except String HttpResponse)
    (url save_path : String) (fs : FS) : DownloadResult :=
  if fs.existsFile save_path then
    ⟨true, fs, [.alreadyExists url save_path], false⟩
  else
    match net with
    | .error msg =>
      let fs' := if fs.existsFile save_path then fs.remove save_path else fs
      ⟨false, fs', [.errored url save_path msg], true⟩
    | .ok resp =>
      if withPdfCheck && !(listIsInfix "pdf".data (resp.contentType.data.map Char.toLower)) then
        ⟨false, fs, [.notPdf url save_path], true⟩
      else
        let r := streamBody url save_path resp.contentLength fs [] resp.body
        ⟨r.1, r.2.1, r.2.2, true⟩

/-! ### Auxiliary definitions for the statements and concrete scenarios -/

/-- The registry invariant behind id uniqueness: every indexed URL's id
holds a record stored for exactly that URL. -/
def IndexInv (s : RandomIDFactory) : Prop :=
  ∀ u c, dictGet u s.url_to_uuid = some c →
    ∃ m, dictGet c s.metadata = some m ∧ m.url = u

/-- A worker that succeeds on every item except `"b"`, where it raises. -/
def raisingWorker : String → Option String → Except PyExn Bool :=
  fun u _ => if u = "b" then .error ⟨"boom"⟩ else .ok true

/-- A registry in which the id `"A"` is already held by a record for the
URL `"other"`. -/
def collState : RandomIDFactory := ⟨[], [("A", ⟨"A", "other", 0⟩)]⟩

/-- A digest that sends every input to `"A"`: every nonce attempt collides. -/
def hashConstA : String → String := fun _ => "A"

/-- A digest that collides on the plain URL `"u"` and resolves at nonce 1. -/
def hashSplitAB : String → String := fun v => if v = "u" then "A" else "B"

/-! ## Theorems -/

theorem pyPathJoin_ne_empty (a b : String) : pyPathJoin a b ≠ "" := by
  unfold pyPathJoin
  split
  · split
    · decide
    · next ha => exact ha
  · split
    · next hb =>
      intro hc
      subst hc
      simp at hb
    · split
      · next h _ _ => exact fun hc => h (Or.inl hc)
      · intro hc
        have hlen := congrArg String.length hc
        simp only [String.length_append] at hlen
        rw [show ("/" : String).length = 1 from rfl,
            show ("" : String).length = 0 from rfl] at hlen
        omega

theorem tryCandidates_ok {hash : String → String} {root url : String} {now : Nat}
    {s : RandomIDFactory} {l : List String} {m : FileMetadata} {s' : RandomIDFactory}
    (h : tryCandidates hash root url now s l = (.ok m, s')) :
    ∃ c, c ≠ "" ∧ s'.url_to_uuid = (url, c) :: s.url_to_uuid ∧
      dictGet c s'.metadata = some m := by
  induction l with
  | nil => simp [tryCandidates] at h
  | cons u rest ih =>
    rw [tryCandidates] at h
    split at h
    · next m₀ hdg =>
      split at h
      · next hu =>
        simp only [Prod.mk.injEq, Except.ok.injEq] at h
        obtain ⟨hm, hs⟩ := h
        subst hs
        subst hm
        exact ⟨pyPathJoin root (hash u), pyPathJoin_ne_empty root (hash u), rfl, hdg⟩
      · exact ih h
    · next hdg =>
      simp only [Prod.mk.injEq, Except.ok.injEq] at h
      obtain ⟨hm, hs⟩ := h
      subst hs
      refine ⟨pyPathJoin root (hash u), pyPathJoin_ne_empty root (hash u), rfl, ?_⟩
      simp [dictGet, hm]

theorem register_ok_lookup {hash : String → String} {url : String} {now : Nat}
    {s : RandomIDFactory} {m : FileMetadata} {s' : RandomIDFactory}
    (h : registerfilemetadata hash url now s = (.ok m, s')) :
    ∃ c, c ≠ "" ∧ dictGet url s'.url_to_uuid = some c ∧
      dictGet c s'.metadata = some m := by
  rw [registerfilemetadata] at h
  split at h
  · next existing_id hidx =>
    split at h
    · obtain ⟨c, hc, he, hm⟩ := tryCandidates_ok h
      exact ⟨c, hc, by simp [he, dictGet], hm⟩
    · next hid =>
      split at h
      · next m₀ hmet =>
        simp only [Prod.mk.injEq, Except.ok.injEq] at h
        obtain ⟨hm, hs⟩ := h
        subst hs
        subst hm
        exact ⟨existing_id, hid, hidx, hmet⟩
      · obtain ⟨c, hc, he, hm⟩ := tryCandidates_ok h
        exact ⟨c, hc, by simp [he, dictGet], hm⟩
  · obtain ⟨c, hc, he, hm⟩ := tryCandidates_ok h
    exact ⟨c, hc, by simp [he, dictGet], hm⟩

/-- C1: once a URL has been successfully registered, registering it again
(at any later clock tick) returns the very same record — same id, same
source URL, same creation timestamp — and returns the registry state
unchanged: neither the URL index nor the record store is touched. -/
theorem registerOrGet_idempotent (hash : String → String) (url : String)
    (now now' : Nat) (s s' : RandomIDFactory) (m : FileMetadata)
    (h : registerfilemetadata hash url now s = (.ok m, s')) :
    registerfilemetadata hash url now' s' = (.ok m, s') := by
  obtain ⟨c, hc, hidx, hmet⟩ := register_ok_lookup h
  rw [registerfilemetadata, hidx]
  simp [hc, hmet]

theorem registerOrGet_idempotent_witness :
    registerfilemetadata (fun _ => "h") "u" 5 regEmpty =
      (.ok ⟨"h", "u", 5⟩, ⟨[("u", "h")], [("h", ⟨"h", "u", 5⟩)]⟩) ∧
    registerfilemetadata (fun _ => "h") "u" 7 ⟨[("u", "h")], [("h", ⟨"h", "u", 5⟩)]⟩ =
      (.ok ⟨"h", "u", 5⟩, ⟨[("u", "h")], [("h", ⟨"h", "u", 5⟩)]⟩) :=
  ⟨by decide,
   registerOrGet_idempotent (fun _ => "h") "u" 5 7 regEmpty
     ⟨[("u", "h")], [("h", ⟨"h", "u", 5⟩)]⟩ ⟨"h", "u", 5⟩ (by decide)⟩

/-- C9: when the destination file already exists, the worker reports
`already_exists` at 0 percent, returns success, never reaches
`session.get`, and leaves the filesystem — in particular the existing
file's contents — untouched. -/
theorem alreadyExists_no_refetch (withPdfCheck : Bool)
    (net : Except String HttpResponse) (url save_path : String) (fs : FS)
    (h : fs.existsFile save_path = true) :
    download_single_pdf withPdfCheck net url save_path fs =
      ⟨true, fs, [.alreadyExists url save_path], false⟩ := by
  simp [download_single_pdf, h]

theorem alreadyExists_no_refetch_witness :
    (FS.mk [("p", [7, 8])]).existsFile "p" = true ∧
    download_single_pdf true (.error "network down") "u" "p" ⟨[("p", [7, 8])]⟩ =
      ⟨true, ⟨[("p", [7, 8])]⟩, [.alreadyExists "u" "p"], false⟩ :=
  ⟨by decide,
   alreadyExists_no_refetch true (.error "network down") "u" "p"
     ⟨[("p", [7, 8])]⟩ (by decide)⟩

/-- When no worker call raises, the collection loop returns exactly the
outcomes of the items whose worker result was truthy, in completion
order. -/
theorem processCompletions_total (worker : String → Option String → Except PyExn Bool)
    (sbp : Option String) :
    ∀ l : List String, (∀ u ∈ l, ∃ b, worker u (batchDest sbp u) = Except.ok b) →
      processCompletions worker sbp l =
        .ok ((l.filter (fun u => decide (worker u (batchDest sbp u) = Except.ok true))).map
          (batchOutcome sbp)) := by
  intro l
  induction l with
  | nil => intro _; rfl
  | cons u rest ih =>
    intro h
    obtain ⟨b, hb⟩ := h u (List.mem_cons_self u rest)
    rw [processCompletions, hb, ih (fun v hv => h v (List.mem_cons_of_mem u hv))]
    cases b with
    | true => simp [List.filter_cons, hb]
    | false => simp [List.filter_cons, hb]

/-- C4 counterexample: in `FileProcessor.batch_process_files` an exception
raised by the worker on one item is re-raised by the collection loop
(`except Exception as e: raise e`): the batch call itself fails even though
the failure was an individual item's, and the sibling successes are
discarded. -/
theorem batch_raise_counterexample :
    raisingWorker "a" none = .ok true ∧ raisingWorker "c" none = .ok true ∧
    raisingWorker "b" none = .error ⟨"boom"⟩ ∧
    batch_process_files raisingWorker none ["a", "b", "c"] = .error ⟨"boom"⟩ := by
  decide

/-- C4 (amended): an individual item's failure recorded as an unsuccessful
(falsy) worker result never makes the batch call fail — when no worker call
raises, `batch_process_files` completes normally and returns exactly the
outcomes of the successful items; but an exception raised by a worker
propagates out of the batch call. -/
theorem batch_isolates_recorded_failures
    (worker : String → Option String → Except PyExn Bool) (sbp : Option String)
    (order : List String)
    (h : ∀ u ∈ order, ∃ b, worker u (batchDest sbp u) = Except.ok b) :
    batch_process_files worker sbp order =
      .ok ((order.filter (fun u => decide (worker u (batchDest sbp u) = Except.ok true))).map
        (batchOutcome sbp)) :=
  processCompletions_total worker sbp order h

theorem batch_isolates_recorded_failures_witness :
    (∀ u ∈ ["a", "b", "c"], ∃ b,
      (fun (v : String) (_ : Option String) => (Except.ok (v != "b") : Except PyExn Bool)) u
        (batchDest none u) = Except.ok b) ∧
    batch_process_files (fun v _ => .ok (v != "b")) none ["a", "b", "c"] =
      .ok ["a", "c"] := by
  refine ⟨fun u _ => ⟨u != "b", rfl⟩, ?_⟩
  rw [batch_isolates_recorded_failures (fun v _ => .ok (v != "b")) none ["a", "b", "c"]
    (fun u _ => ⟨u != "b", rfl⟩)]
  decide

theorem map_batchOutcome_none (l : List String) : l.map (batchOutcome none) = l := by
  induction l with
  | nil => rfl
  | cons u rest ih => rw [List.map_cons, ih]; rfl

/-- C6: over a list of distinct items and a worker that succeeds on each,
the batch returns one successful outcome per input item — the result is a
permutation of the inputs, hence has length N, no duplicates, and the same
underlying set regardless of completion order — and each item completes
(and so was dispatched) at most once. -/
theorem batch_completeness (worker : String → Option String → Except PyExn Bool)
    (urls order : List String) (hn : urls.Nodup) (hp : order.Perm urls)
    (hw : ∀ u ∈ urls, worker u none = Except.ok true) :
    batch_process_files worker none order = .ok order ∧
    order.Perm urls ∧ order.length = urls.length ∧ order.Nodup ∧
    order.toFinset = urls.toFinset ∧ ∀ u, order.count u ≤ 1 := by
  have hw' : ∀ u ∈ order, worker u (batchDest none u) = Except.ok true :=
    fun u hu => hw u (hp.subset hu)
  have hres := processCompletions_total worker none order
    (fun u hu => ⟨true, hw' u hu⟩)
  have hfilter : order.filter
      (fun u => decide (worker u (batchDest none u) = Except.ok true)) = order :=
    List.filter_eq_self.mpr (fun u hu => by simp [hw' u hu])
  have hnodup : order.Nodup := hp.nodup_iff.mpr hn
  refine ⟨?_, hp, hp.length_eq, hnodup, List.toFinset_eq_of_perm order urls hp, ?_⟩
  · rw [batch_process_files, hres, hfilter, map_batchOutcome_none]
  · intro u
    exact (List.nodup_iff_count_le_one.mp hnodup) u

theorem batch_completeness_witness :
    (["a", "b", "c"] : List String).Nodup ∧
    (["b", "c", "a"] : List String).Perm ["a", "b", "c"] ∧
    batch_process_files (fun _ _ => .ok true) none ["b", "c", "a"] =
      .ok ["b", "c", "a"] ∧
    (["b", "c", "a"] : List String).length = 3 :=
  ⟨by decide, by decide,
   (batch_completeness (fun _ _ => .ok true) ["a", "b", "c"] ["b", "c", "a"]
     (by decide) (by decide) (fun _ _ => rfl)).1,
   by decide⟩

/-- C10: with `save_base_path = None` the successful outcomes are the
original input items themselves — exactly the urls whose worker result was
truthy — and no destination directory is created (`get_save_path_from_url`,
and with it `os.makedirs`, is only invoked when a base path is supplied). -/
theorem batch_no_base_returns_items
    (worker : String → Option String → Except PyExn Bool)
    (order res : List String)
    (h : batch_process_files worker none order = .ok res) :
    res = order.filter (fun u => decide (worker u none = Except.ok true)) ∧
    (∀ x ∈ res, x ∈ order) ∧
    batchDirsCreated order none = [] := by
  have hmain : ∀ (l : List String) (r : List String),
      processCompletions worker none l = .ok r →
      r = l.filter (fun u => decide (worker u none = Except.ok true)) := by
    intro l
    induction l with
    | nil =>
      intro r hr
      simp only [processCompletions, Except.ok.injEq] at hr
      simp [← hr]
    | cons u rest ih =>
      intro r hr
      rw [processCompletions] at hr
      cases hw : worker u (batchDest none u) with
      | error e => rw [hw] at hr; cases hr
      | ok b =>
        rw [hw] at hr
        cases hrec : processCompletions worker none rest with
        | error e => rw [hrec] at hr; cases hr
        | ok acc =>
          rw [hrec] at hr
          simp only [Except.ok.injEq] at hr
          have hacc := ih acc hrec
          have hw' : worker u none = Except.ok b := hw
          cases b with
          | true => simp [← hr, List.filter_cons, hw', hacc, batchOutcome]
          | false => simp [← hr, List.filter_cons, hw', hacc]
  have h1 := hmain order res h
  refine ⟨h1, ?_, rfl⟩
  intro x hx
  rw [h1] at hx
  exact List.mem_of_mem_filter hx

theorem batch_no_base_returns_items_witness :
    batch_process_files (fun u _ => .ok (u == "a")) none ["a", "b"] = .ok ["a"] ∧
    (["a"] : List String) =
      (["a", "b"] : List String).filter
        (fun u => decide ((fun (v : String) (_ : Option String) =>
          (Except.ok (v == "a") : Except PyExn Bool)) u none = Except.ok true)) ∧
    batchDirsCreated ["a", "b"] none = [] :=
  ⟨by decide,
   by rw [(batch_no_base_returns_items (fun u _ => .ok (u == "a")) ["a", "b"] ["a"]
       (by decide)).1],
   (batch_no_base_returns_items (fun u _ => .ok (u == "a")) ["a", "b"] ["a"]
     (by decide)).2.2⟩

theorem dictGet_filter_ne {β : Type} (p : String) (l : List (String × β)) :
    dictGet p (l.filter (fun q => q.1 != p)) = none := by
  induction l with
  | nil => rfl
  | cons q rest ih =>
    by_cases h : q.1 = p
    · simp [List.filter_cons, h, ih]
    · simp [List.filter_cons, h, dictGet, ih]

theorem FS.existsFile_write_self (fs : FS) (p : String) (c : List Nat) :
    (fs.write p c).existsFile p = true := by
  simp [FS.write, FS.existsFile, FS.lookup, dictGet]

theorem FS.existsFile_remove_self (fs : FS) (p : String) :
    (fs.remove p).existsFile p = false := by
  simp [FS.remove, FS.existsFile, FS.lookup, dictGet_filter_ne]

/-- A `RequestException` interrupting the chunk loop always yields a failed
item with no file left at the destination, no matter how many chunks were
already written. -/
theorem streamBody_requestExc (url save_path : String) (total : Nat) (msg : String)
    (rest : List BodyEvent) :
    ∀ (chunks : List (List Nat)) (fs : FS) (content : List Nat),
      (streamBody url save_path total fs content
        (chunks.map BodyEvent.chunk ++ BodyEvent.requestExc msg :: rest)).1 = false ∧
      ((streamBody url save_path total fs content
        (chunks.map BodyEvent.chunk ++ BodyEvent.requestExc msg :: rest)).2.1).existsFile
          save_path = false := by
  intro chunks
  induction chunks with
  | nil =>
    intro fs content
    rw [List.map_nil, List.nil_append, streamBody]
    refine ⟨rfl, ?_⟩
    simp [FS.existsFile_write_self, FS.existsFile_remove_self]
  | cons d ds ih =>
    intro fs content
    rw [List.map_cons, List.cons_append, streamBody]
    by_cases hd : d.isEmpty
    · simp only [if_pos hd]
      exact ih fs content
    · simp only [if_neg hd]
      exact ⟨(ih fs (content ++ d)).1, (ih fs (content ++ d)).2⟩

/-- C5 counterexample: an I/O error (any exception other than a
`RequestException`, e.g. an `OSError` from `f.write`) after a partial write
lands in the bare `except Exception` handler, which performs no cleanup:
the item is reported failed, yet the truncated destination file remains on
disk with the partially written bytes. -/
theorem io_error_leaves_partial_file_counterexample :
    (download_single_pdf true
      (.ok ⟨"application/pdf", 10, [.chunk [1, 2, 3], .otherExc "os write error"]⟩)
      "u" "p" FS.empty).success = false ∧
    (download_single_pdf true
      (.ok ⟨"application/pdf", 10, [.chunk [1, 2, 3], .otherExc "os write error"]⟩)
      "u" "p" FS.empty).fs.lookup "p" = some [1, 2, 3] := by
  decide

/-- C5 (amended): when the mid-stream failure is a transport error
(`requests.exceptions.RequestException`), the partially written destination
file is deleted before the item is reported failed, so no truncated file
remains for that item; the failed item merely contributes a falsy worker
result, so every sibling item of the batch still yields its own outcome.
(For non-`RequestException` I/O errors the partial file is left behind —
see the counterexample.) -/
theorem transport_error_removes_partial_file (wc : Bool) (url save_path : String)
    (fs : FS) (ct : String) (total : Nat) (chunks : List (List Nat)) (msg : String)
    (rest : List BodyEvent)
    (hne : fs.existsFile save_path = false)
    (hct : listIsInfix "pdf".data (ct.data.map Char.toLower) = true) :
    (download_single_pdf wc (.ok ⟨ct, total,
        chunks.map BodyEvent.chunk ++ BodyEvent.requestExc msg :: rest⟩)
      url save_path fs).success = false ∧
    (download_single_pdf wc (.ok ⟨ct, total,
        chunks.map BodyEvent.chunk ++ BodyEvent.requestExc msg :: rest⟩)
      url save_path fs).fs.existsFile save_path = false ∧
    (∀ order : List String,
      processCompletions (fun v _ => .ok (v != url)) none order =
        .ok (order.filter (fun v => v != url))) := by
  have hbody := streamBody_requestExc url save_path total msg rest chunks fs []
  have hdl : download_single_pdf wc (.ok ⟨ct, total,
      chunks.map BodyEvent.chunk ++ BodyEvent.requestExc msg :: rest⟩)
      url save_path fs =
      ⟨(streamBody url save_path total fs []
          (chunks.map BodyEvent.chunk ++ BodyEvent.requestExc msg :: rest)).1,
       (streamBody url save_path total fs []
          (chunks.map BodyEvent.chunk ++ BodyEvent.requestExc msg :: rest)).2.1,
       (streamBody url save_path total fs []
          (chunks.map BodyEvent.chunk ++ BodyEvent.requestExc msg :: rest)).2.2,
       true⟩ := by
    rw [download_single_pdf]
    simp [hne, hct]
  refine ⟨?_, ?_, ?_⟩
  · rw [hdl]; exact hbody.1
  · rw [hdl]; exact hbody.2
  · intro order
    rw [processCompletions_total (fun v _ => .ok (v != url)) none order
      (fun v _ => ⟨v != url, rfl⟩)]
    have hfil : order.filter (fun v => decide ((fun (w : String) (_ : Option String) =>
        (Except.ok (w != url) : Except PyExn Bool)) v (batchDest none v) = Except.ok true)) =
        order.filter (fun v => v != url) :=
      List.filter_congr (fun v _ => by cases hvu : v != url <;> simp [hvu])
    rw [hfil, map_batchOutcome_none]

theorem transport_error_removes_partial_file_witness :
    FS.empty.existsFile "p" = false ∧
    listIsInfix "pdf".data ("application/pdf".data.map Char.toLower) = true ∧
    (download_single_pdf true
      (.ok ⟨"application/pdf", 10, [.chunk [1, 2], .requestExc "connection reset"]⟩)
      "u" "p" FS.empty).success = false ∧
    (download_single_pdf true
      (.ok ⟨"application/pdf", 10, [.chunk [1, 2], .requestExc "connection reset"]⟩)
      "u" "p" FS.empty).fs.existsFile "p" = false :=
  ⟨by decide, by decide,
   (transport_error_removes_partial_file true "u" "p" FS.empty "application/pdf" 10
     [[1, 2]] "connection reset" [] (by decide) (by decide)).1,
   (transport_error_removes_partial_file true "u" "p" FS.empty "application/pdf" 10
     [[1, 2]] "connection reset" [] (by decide) (by decide)).2.1⟩

theorem sanitize_name_chars {c : Char} {s : String}
    (h : c ∈ (sanitize_name s).data) : sanitizeKeep c = true ∨ c = '_' := by
  obtain ⟨x, _, hfx⟩ := List.mem_map.mp h
  by_cases hk : sanitizeKeep x
  · rw [if_pos hk] at hfx
    exact Or.inl (hfx ▸ hk)
  · rw [if_neg hk] at hfx
    exact Or.inr hfx.symm

theorem sanitizedFilename_shape (f : String) :
    (∃ s, sanitizedFilename f = sanitize_name s) ∨
    (∃ s t, sanitizedFilename f = sanitize_name s ++ "." ++ sanitize_name t) := by
  unfold sanitizedFilename
  split
  · exact Or.inr ⟨_, _, rfl⟩
  · exact Or.inl ⟨_, rfl⟩

section UrlOpaque

/- The URL-parsing layer is kept opaque while reasoning about a symbolic
URL: the proofs below only use the structure of `get_save_path_parts`, not
the parse itself, and without this the unifier descends into the parser. -/
attribute [local irreducible] urlCleanup splitScheme splitNetloc splitPathOnly
  stripSlashes rawPathParts rawSplit urlparse_netloc urlparse_path

theorem get_save_path_parts_domain (url : String) :
    (get_save_path_parts url).domain = sanitize_name (urlparse_netloc url) := rfl

theorem get_save_path_parts_mem_parts {url q : String}
    (hq : q ∈ (get_save_path_parts url).parts) : ∃ s, q = sanitize_name s := by
  obtain ⟨p, _, hp⟩ := List.mem_map.mp hq
  exact ⟨⟨p⟩, hp.symm⟩

theorem get_save_path_parts_filename (url : String) :
    (∃ s, (get_save_path_parts url).filename = sanitize_name s) ∨
    (∃ s t, (get_save_path_parts url).filename =
      sanitize_name s ++ "." ++ sanitize_name t) :=
  sanitizedFilename_shape (rawSplit url).2

/-- C3 (amended): every component of the resolved path — the domain, every
intermediate segment, and the filename (its stem and extension sanitized
independently, the extension-separating dot preserved) — contains only
characters kept by the code's class `[\w.-]` (Python word characters, dots
and hyphens; on ASCII exactly `[A-Za-z0-9._-]`) or the replacement `'_'`;
no component contains a path separator, and the returned path is exactly
the fold of those components onto the base directory. -/
theorem savePath_components_sanitized (url base : String) :
    (∀ comp ∈ savePathComponents url, ∀ c ∈ comp.data,
      sanitizeKeep c = true ∨ c = '_') ∧
    (∀ comp ∈ savePathComponents url, '/' ∉ comp.data) ∧
    get_save_path_from_url url base = (savePathComponents url).foldl osPathJoin base := by
  have hchars : ∀ comp ∈ savePathComponents url, ∀ c ∈ comp.data,
      sanitizeKeep c = true ∨ c = '_' := by
    intro comp hcomp c hc
    simp only [savePathComponents] at hcomp
    rcases List.mem_cons.mp hcomp with h1 | hrest
    · subst h1
      rw [get_save_path_parts_domain] at hc
      exact sanitize_name_chars hc
    · rcases List.mem_append.mp hrest with h2 | h3
      · obtain ⟨s, hs⟩ := get_save_path_parts_mem_parts h2
        subst hs
        exact sanitize_name_chars hc
      · have h3' := List.mem_singleton.mp h3
        subst h3'
        obtain ⟨s, hs⟩ | ⟨s, t, hst⟩ := get_save_path_parts_filename url
        · rw [hs] at hc
          exact sanitize_name_chars hc
        · rw [hst] at hc
          simp only [String.data_append] at hc
          rcases List.mem_append.mp hc with hc' | hc'
          · rcases List.mem_append.mp hc' with hc'' | hc''
            · exact sanitize_name_chars hc''
            · rw [List.mem_singleton.mp hc'']
              exact Or.inl (by decide)
          · exact sanitize_name_chars hc'
  refine ⟨hchars, ?_, ?_⟩
  · intro comp hcomp hmem
    rcases hchars comp hcomp '/' hmem with h | h
    · exact absurd h (by decide)
    · exact absurd h (by decide)
  · rw [get_save_path_from_url, save_dir_for, savePathComponents]
    simp only [List.cons_append, List.foldl_cons, List.foldl_append, List.foldl_nil]

end UrlOpaque

/-- C3 counterexample: Python's `\w` in `re.sub(r"[^\w.-]", "_", ...)` is
Unicode-aware, so `sanitize_name` keeps non-ASCII letters such as `é`
unchanged; the path components for `http://ex.com/café/x.pdf` therefore
contain a character outside the class `[A-Za-z0-9._-]`, contradicting the
claim. -/
theorem sanitize_unicode_counterexample :
    ¬ (∀ comp ∈ savePathComponents "http://ex.com/café/x.pdf",
        ∀ c ∈ comp.data, specSafeChar c = true) ∧
    sanitize_name "café" = "café" := by
  exact ⟨by decide, by decide⟩


theorem tryCandidates_inv {hash : String → String} {root url : String} {now : Nat}
    {s : RandomIDFactory} (hinv : IndexInv s) :
    ∀ l : List String, IndexInv (tryCandidates hash root url now s l).2 := by
  intro l
  induction l with
  | nil => exact hinv
  | cons u rest ih =>
    rw [tryCandidates]
    split
    · next m₀ hdg =>
      split
      · next hu =>
        intro u' c' h'
        rw [dictGet] at h'
        by_cases he : url = u'
        · rw [if_pos he] at h'
          injection h' with h'
          subst h'
          exact ⟨m₀, hdg, by rw [hu, he]⟩
        · rw [if_neg he] at h'
          exact hinv u' c' h'
      · exact ih
    · next hdg =>
      intro u' c' h'
      rw [dictGet] at h'
      by_cases he : url = u'
      · rw [if_pos he] at h'
        injection h' with h'
        subst h'
        exact ⟨_, by rw [dictGet, if_pos rfl], he⟩
      · rw [if_neg he] at h'
        obtain ⟨m', hm', hu'⟩ := hinv u' c' h'
        have hne : pyPathJoin root (hash u) ≠ c' := by
          intro hcc
          rw [hcc] at hdg
          rw [hdg] at hm'
          cases hm'
        exact ⟨m', by rw [dictGet, if_neg hne]; exact hm', hu'⟩

theorem register_inv {hash : String → String} {url : String} {now : Nat}
    {s : RandomIDFactory} (hinv : IndexInv s) :
    IndexInv (registerfilemetadata hash url now s).2 := by
  simp only [registerfilemetadata]
  split
  · split
    · exact tryCandidates_inv hinv _
    · split
      · exact hinv
      · exact tryCandidates_inv hinv _
  · exact tryCandidates_inv hinv _

theorem reachable_inv {hash : String → String} {s : RandomIDFactory}
    (h : Reachable hash s) : IndexInv s := by
  induction h with
  | empty => intro u c hc; cases hc
  | step url now _ ih => exact register_inv ih

/-- C7: after every sequence of registerOrGet calls from the empty
registry, the URL→id index is injective: any two distinct registered URLs
hold distinct ids (the nonce procedure only ever binds a URL to an id whose
record stores that URL), so N distinct URLs receive N distinct ids. -/
theorem registry_index_injective (hash : String → String) {s : RandomIDFactory}
    (hr : Reachable hash s) {u₁ u₂ id₁ id₂ : String} (hne : u₁ ≠ u₂)
    (h₁ : dictGet u₁ s.url_to_uuid = some id₁)
    (h₂ : dictGet u₂ s.url_to_uuid = some id₂) : id₁ ≠ id₂ := by
  obtain ⟨m₁, hm₁, hu₁⟩ := reachable_inv hr u₁ id₁ h₁
  obtain ⟨m₂, hm₂, hu₂⟩ := reachable_inv hr u₂ id₂ h₂
  intro he
  subst he
  rw [hm₁] at hm₂
  injection hm₂ with hm
  subst hm
  exact hne (hu₁.symm.trans hu₂)

theorem registry_index_injective_witness :
    ("a" : String) ≠ "b" ∧
    dictGet "a" (registerfilemetadata (fun v => v) "b" 0
        (registerfilemetadata (fun v => v) "a" 0 regEmpty).2).2.url_to_uuid = some "a" ∧
    dictGet "b" (registerfilemetadata (fun v => v) "b" 0
        (registerfilemetadata (fun v => v) "a" 0 regEmpty).2).2.url_to_uuid = some "b" ∧
    ("a" : String) ≠ ("b" : String) :=
  ⟨by decide, by decide, by decide,
   @registry_index_injective (fun v => v) _
     (Reachable.step "b" 0 (Reachable.step "a" 0 Reachable.empty))
     "a" "b" "a" "b" (by decide) (by decide) (by decide)⟩

theorem tryCandidates_all_collide (hash : String → String) (root url : String)
    (now : Nat) (s : RandomIDFactory) :
    ∀ l : List String,
      (∀ v ∈ l, ∃ mv, dictGet (pyPathJoin root (hash v)) s.metadata = some mv ∧
        mv.url ≠ url) →
      tryCandidates hash root url now s l = (.error .collisionExhausted, s) := by
  intro l
  induction l with
  | nil => intro _; rfl
  | cons v rest ih =>
    intro h
    obtain ⟨mv, hmv, hne⟩ := h v (List.mem_cons_self v rest)
    simp only [tryCandidates, hmv]
    rw [if_neg hne]
    exact ih (fun w hw => h w (List.mem_cons_of_mem v hw))

theorem tryCandidates_first_success (hash : String → String) (root url : String)
    (now : Nat) (s : RandomIDFactory) (v : String) (l₂ : List String)
    (hv : ∀ mv, dictGet (pyPathJoin root (hash v)) s.metadata = some mv → mv.url = url) :
    ∀ l₁ : List String,
      (∀ w ∈ l₁, ∃ mw, dictGet (pyPathJoin root (hash w)) s.metadata = some mw ∧
        mw.url ≠ url) →
      ∃ m s', tryCandidates hash root url now s (l₁ ++ v :: l₂) = (.ok m, s') ∧
        dictGet url s'.url_to_uuid = some (pyPathJoin root (hash v)) := by
  intro l₁
  induction l₁ with
  | nil =>
    intro _
    rw [List.nil_append]
    cases hdg : dictGet (pyPathJoin root (hash v)) s.metadata with
    | some mv =>
      refine ⟨mv,
        { s with url_to_uuid := (url, pyPathJoin root (hash v)) :: s.url_to_uuid },
        ?_, by simp [dictGet]⟩
      simp only [tryCandidates, hdg]
      rw [if_pos (hv mv hdg)]
    | none =>
      refine ⟨⟨pyPathJoin root (hash v), url, now⟩,
        ⟨(url, pyPathJoin root (hash v)) :: s.url_to_uuid,
         (pyPathJoin root (hash v), ⟨pyPathJoin root (hash v), url, now⟩) :: s.metadata⟩,
        ?_, by simp [dictGet]⟩
      simp only [tryCandidates, hdg]
  | cons w rest ih =>
    intro h
    obtain ⟨mw, hmw, hne⟩ := h w (List.mem_cons_self w rest)
    rw [List.cons_append]
    obtain ⟨m, s', heq, hidx⟩ := ih (fun x hx => h x (List.mem_cons_of_mem w hx))
    refine ⟨m, s', ?_, hidx⟩
    simp only [tryCandidates, hmw]
    rw [if_neg hne]
    exact heq

/-- C2: when the candidate id derived for a fresh URL is occupied by a
record stored for a different URL, registration retries with digests of
`url + "_" + nonce` for nonce = 1..10: it succeeds at the first attempt
whose candidate is unused (or holds a record whose sourceUrl is this URL),
binding the URL to that id, which is distinct from the occupied candidate;
and if every nonce attempt also collides the call fails with the
`CollisionExhausted` error (`RuntimeError`), leaving the registry — in
particular the URL index — exactly as it was. -/
theorem collision_retry_behaviour (hash : String → String) (url : String)
    (now : Nat) (s : RandomIDFactory) (m₀ : FileMetadata)
    (hIdx : dictGet url s.url_to_uuid = none)
    (hOcc : dictGet (nonceCandidate hash url 0) s.metadata = some m₀)
    (hDiff : m₀.url ≠ url) :
    ((∀ k, 1 ≤ k → k ≤ 10 → collidesAt hash url s k) →
      registerfilemetadata hash url now s = (.error .collisionExhausted, s)) ∧
    (∀ k₀, 1 ≤ k₀ → k₀ ≤ 10 → freeOrMine hash url s k₀ →
      (∀ j, 1 ≤ j → j < k₀ → collidesAt hash url s j) →
      ∃ m s', registerfilemetadata hash url now s = (.ok m, s') ∧
        dictGet url s'.url_to_uuid = some (nonceCandidate hash url k₀) ∧
        nonceCandidate hash url k₀ ≠ nonceCandidate hash url 0) := by
  have hreg : registerfilemetadata hash url now s =
      tryCandidates hash (get_root_domain_from_url url) url now s (attemptUrls url) := by
    simp only [registerfilemetadata, hIdx]
  constructor
  · intro hall
    rw [hreg]
    apply tryCandidates_all_collide
    intro v hv
    rw [attemptUrls] at hv
    obtain ⟨k, hk, hsalt⟩ := List.mem_map.mp hv
    rw [List.mem_range] at hk
    subst hsalt
    rcases Nat.eq_zero_or_pos k with h0 | hpos
    · subst h0
      exact ⟨m₀, hOcc, hDiff⟩
    · exact hall k hpos (by omega)
  · intro k₀ hk1 hk10 hfree hbefore
    have hsplit : List.range 11 = List.range k₀ ++ k₀ :: List.range' (k₀ + 1) (10 - k₀) := by
      have h1 : List.range' 0 k₀ ++ List.range' (0 + k₀) (11 - k₀) =
          List.range' 0 ((11 - k₀) + k₀) := List.range'_append_1 0 k₀ (11 - k₀)
      rw [List.range_eq_range', List.range_eq_range']
      rw [show (11 - k₀) + k₀ = 11 from by omega] at h1
      rw [← h1, Nat.zero_add]
      congr 1
      rw [show 11 - k₀ = (10 - k₀) + 1 from by omega, List.range'_succ]
    have hatt : attemptUrls url =
        (List.range k₀).map (saltedUrl url) ++ saltedUrl url k₀ ::
          (List.range' (k₀ + 1) (10 - k₀)).map (saltedUrl url) := by
      rw [attemptUrls, hsplit, List.map_append, List.map_cons]
    obtain ⟨m, s', heq, hidx⟩ :=
      tryCandidates_first_success hash (get_root_domain_from_url url) url now s
        (saltedUrl url k₀) ((List.range' (k₀ + 1) (10 - k₀)).map (saltedUrl url))
        (fun mv hmv => hfree mv hmv)
        ((List.range k₀).map (saltedUrl url))
        (by
          intro w hw
          obtain ⟨j, hj, hsalt⟩ := List.mem_map.mp hw
          rw [List.mem_range] at hj
          subst hsalt
          rcases Nat.eq_zero_or_pos j with h0 | hpos
          · subst h0
            exact ⟨m₀, hOcc, hDiff⟩
          · exact hbefore j hpos hj)
    refine ⟨m, s', ?_, hidx, ?_⟩
    · rw [hreg, hatt]
      exact heq
    · intro hEq
      rw [← hEq] at hOcc
      exact hDiff (hfree m₀ hOcc)

theorem collision_retry_behaviour_witness :
    (dictGet "u" collState.url_to_uuid = none ∧
     dictGet (nonceCandidate hashSplitAB "u" 0) collState.metadata =
       some ⟨"A", "other", 0⟩ ∧
     (⟨"A", "other", 0⟩ : FileMetadata).url ≠ "u") ∧
    registerfilemetadata hashConstA "u" 0 collState =
      (.error .collisionExhausted, collState) ∧
    (∃ m s', registerfilemetadata hashSplitAB "u" 0 collState = (.ok m, s') ∧
      dictGet "u" s'.url_to_uuid = some "B" ∧ ("B" : String) ≠ "A") := by
  refine ⟨⟨rfl, rfl, by decide⟩, ?_, ?_⟩
  · exact (collision_retry_behaviour hashConstA "u" 0 collState ⟨"A", "other", 0⟩
      rfl rfl (by decide)).1
      (fun k h1 h2 => ⟨⟨"A", "other", 0⟩, rfl, by decide⟩)
  · obtain ⟨m, s', heq, hidx, hne⟩ :=
      (collision_retry_behaviour hashSplitAB "u" 0 collState ⟨"A", "other", 0⟩
        rfl rfl (by decide)).2 1 (by omega) (by omega)
        (fun mk hmk => by
          rw [show dictGet (nonceCandidate hashSplitAB "u" 1) collState.metadata =
            none from rfl] at hmk
          cases hmk)
        (fun j hj1 hjlt => absurd hjlt (by omega))
    exact ⟨m, s', heq, hidx, hne⟩

theorem sha256Compress_length (hs block : List Nat) (h : hs.length = 8) :
    (sha256Compress hs block).length = 8 := by
  simp [sha256Compress, List.length_zipWith, h]

theorem sha256Blocks_length (n : Nat) :
    ∀ hs bytes : List Nat, hs.length = 8 → (sha256Blocks n hs bytes).length = 8 := by
  induction n with
  | zero => intro hs bytes h; exact h
  | succ n ih => intro hs bytes h; exact ih _ _ (sha256Compress_length _ _ h)

theorem uuidFormat_head (b : Nat) (bs : List Nat) :
    (uuidFormat (b :: bs)).data.head? = some (hexChar (b / 16 % 16)) := by
  simp [uuidFormat, byteHex, List.take_succ_cons]

/-- The digest string is never empty, never `"."`, and never starts with a
slash: its first character is a hex digit. -/
theorem sha256_uuid_opts (s : String) :
    sha256_uuid s ≠ "" ∧ sha256_uuid s ≠ "." ∧
    (sha256_uuid s).data.head? ≠ some '/' := by
  have hlen := sha256Blocks_length ((sha256pad (utf8Bytes s)).length / 64) sha256H0
    (sha256pad (utf8Bytes s)) rfl
  have hhead : ∃ k, k < 16 ∧ (sha256_uuid s).data.head? = some (hexChar k) := by
    cases hws : sha256Blocks ((sha256pad (utf8Bytes s)).length / 64) sha256H0
        (sha256pad (utf8Bytes s)) with
    | nil => rw [hws] at hlen; cases hlen
    | cons w ws =>
      refine ⟨(w >>> 24) % 256 / 16 % 16, Nat.mod_lt _ (by omega), ?_⟩
      have hbytes : sha256Bytes s = ((w >>> 24) % 256) :: ((w >>> 16) % 256) ::
          ((w >>> 8) % 256) :: (w % 256) :: wordsToBytes ws := by
        simp only [sha256Bytes, hws, wordsToBytes, List.flatMap_cons]
        rfl
      rw [sha256_uuid, hbytes, uuidFormat_head]
  obtain ⟨k, hk, hhd⟩ := hhead
  have hhex : ∀ j, j < 16 → hexChar j ≠ '.' ∧ hexChar j ≠ '/' := by decide
  refine ⟨?_, ?_, ?_⟩
  · intro h
    rw [h] at hhd
    cases hhd
  · intro h
    rw [h] at hhd
    injection hhd with hhd
    exact (hhex k hk).1 hhd.symm
  · intro h
    rw [hhd] at h
    injection h with h
    exact (hhex k hk).2 h

/-- C8 (amended): for a URL not yet indexed whose derived candidate id is
unused, `registerfilemetadata` creates and indexes a record whose id is
`str(Path(netloc(url)) / uuid)` — equal to `netloc + "/" + uuid` whenever
the netloc is a real domain (nonempty and not `"."`); pathlib drops empty
components, so a URL with no authority gets the bare uuid — where `uuid`
is the UUID-formatted string of the first 16 bytes of the SHA-256 digest
of the UTF-8 encoded URL, and the record stores the URL itself as its
sourceUrl. -/
theorem register_fresh_id (url : String) (now : Nat) (s : RandomIDFactory)
    (hIdx : dictGet url s.url_to_uuid = none)
    (hCand : dictGet (nonceCandidate sha256_uuid url 0) s.metadata = none) :
    registerfilemetadata sha256_uuid url now s =
      (.ok ⟨nonceCandidate sha256_uuid url 0, url, now⟩,
       ⟨(url, nonceCandidate sha256_uuid url 0) :: s.url_to_uuid,
        (nonceCandidate sha256_uuid url 0,
         ⟨nonceCandidate sha256_uuid url 0, url, now⟩) :: s.metadata⟩) ∧
    nonceCandidate sha256_uuid url 0 =
      pyPathJoin (get_root_domain_from_url url) (sha256_uuid url) ∧
    (get_root_domain_from_url url ≠ "" → get_root_domain_from_url url ≠ "." →
      nonceCandidate sha256_uuid url 0 =
        get_root_domain_from_url url ++ "/" ++ sha256_uuid url) := by
  have hCand' : dictGet (pyPathJoin (get_root_domain_from_url url)
      (sha256_uuid (saltedUrl url 0))) s.metadata = none := hCand
  have hatt : attemptUrls url =
      saltedUrl url 0 :: (List.range' 1 10).map (saltedUrl url) := by
    rw [attemptUrls, show List.range 11 = 0 :: List.range' 1 10 from by decide,
      List.map_cons]
  refine ⟨?_, rfl, ?_⟩
  · simp only [registerfilemetadata, hIdx, hatt, tryCandidates, hCand']
    rfl
  · intro h1 h2
    show pyPathJoin (get_root_domain_from_url url) (sha256_uuid url) = _
    obtain ⟨hne, hnd, hns⟩ := sha256_uuid_opts url
    unfold pyPathJoin
    rw [if_neg (not_or.mpr ⟨hne, hnd⟩), if_neg hns, if_neg (not_or.mpr ⟨h1, h2⟩)]

/-- C8 counterexample: for a URL with no authority component (here a
mailto URL, whose netloc is empty) the assigned id is the bare uuid —
`str(Path("") / uuid)` drops the empty component — and not
`registrableDomain(u) + "/" + uuid` as the claim states, which would carry
a leading slash. -/
theorem register_id_shape_counterexample :
    (registerfilemetadata sha256_uuid "mailto:a@b" 0 regEmpty).1 =
      .ok ⟨sha256_uuid "mailto:a@b", "mailto:a@b", 0⟩ ∧
    sha256_uuid "mailto:a@b" ≠
      get_root_domain_from_url "mailto:a@b" ++ "/" ++ sha256_uuid "mailto:a@b" := by
  constructor
  · decide
  · intro h
    rw [show get_root_domain_from_url "mailto:a@b" = "" from by decide] at h
    have hlen := congrArg String.length h
    simp only [String.length_append] at hlen
    rw [show ("" : String).length = 0 from rfl,
      show ("/" : String).length = 1 from rfl] at hlen
    omega

theorem register_fresh_id_witness :
    dictGet "http://example.com/a" regEmpty.url_to_uuid = none ∧
    dictGet (nonceCandidate sha256_uuid "http://example.com/a" 0)
      regEmpty.metadata = none ∧
    (registerfilemetadata sha256_uuid "http://example.com/a" 0 regEmpty).1 =
      .ok ⟨"example.com" ++ "/" ++ sha256_uuid "http://example.com/a",
           "http://example.com/a", 0⟩ := by
  refine ⟨rfl, rfl, ?_⟩
  obtain ⟨h1, _, h3⟩ := register_fresh_id "http://example.com/a" 0 regEmpty rfl rfl
  have hd : get_root_domain_from_url "http://example.com/a" = "example.com" := by
    decide
  have hshape := h3 (by rw [hd]; decide) (by rw [hd]; decide)
  rw [h1, hshape, hd]

end Crawlee
